import Mathlib

/-
Verification of the repository-resolution core of src/extension.ts
(history-in-sublime-merge).

Shallow embedding conventions:

* Absolute POSIX paths are represented as `List String` of segments with the
  innermost segment first, so the filesystem root `/` is `[]`,
  `/repo/libs/sub` is `["sub", "libs", "repo"]`, `path.dirname` is
  `List.tail` and `path.join(dir, name)` is `name :: dir`.  All paths the
  extension handles come from `vscode.Uri.path` and are absolute
  `/`-separated strings, so `path.parse(p).root` is always `/`, i.e. `[]`.
* The filesystem is a finite association list from paths to entries
  (regular file with text content, or directory).  `statFails` and
  `readFails` model the spec's section-7 `IOError` class: paths at which a
  `statSync` or `readFileSync` call fails (permission denied or transient
  failure) even though the entry may exist; `existsSync` never throws in
  Node and is modelled as a plain lookup.
* Fallible operations return `Except FsError`; a `.error` value models a
  thrown Node exception propagating out of the translated function.
* JavaScript string operations (`trim`, `startsWith`, `substring`,
  first-occurrence `replace`) are re-implemented structurally over
  `String.data` so that every definition evaluates inside the kernel.
  `trim` uses ASCII whitespace (`Char.isWhitespace`); contents of real
  `.git` redirect files are ASCII.
* `path.resolve(base, rel)` is lexical on segments, processing `.` and
  `..`; an absolute target string is used as-is by the source (lines
  51-53 only resolve relative targets), which coincides with the lexical
  reading for targets free of `.`/`..` segments, the only ones that occur
  in redirect files.
-/

abbrev AbsPath := List String

inductive Entry where
  | file (content : String)
  | dir
deriving DecidableEq, Repr

inductive FsError where
  | ioError
deriving DecidableEq, Repr

structure FS where
  entries : List (AbsPath × Entry)
  statFails : List AbsPath
  readFails : List AbsPath
deriving Repr

/-- First entry registered at a path, as the filesystem sees it. -/
def FS.lookup (fs : FS) (p : AbsPath) : Option Entry :=
  (fs.entries.find? fun pr => pr.1 == p).map Prod.snd

/-- fs.existsSync: true iff the entry exists; never throws. -/
def FS.existsSync (fs : FS) (p : AbsPath) : Bool :=
  (fs.lookup p).isSome

/-- fs.statSync: throws (models spec section 7 IOError) on `statFails`
or on a missing entry, otherwise reports the entry kind. -/
def FS.statSync (fs : FS) (p : AbsPath) : Except FsError Entry :=
  if p ∈ fs.statFails then .error .ioError
  else
    match fs.lookup p with
    | some e => .ok e
    | none => .error .ioError

/-- fs.readFileSync with utf8: throws on `readFails`, on a missing entry
and on a directory, otherwise returns the stored text. -/
def FS.readFileSync (fs : FS) (p : AbsPath) : Except FsError String :=
  if p ∈ fs.readFails then .error .ioError
  else
    match fs.lookup p with
    | some (Entry.file content) => .ok content
    | _ => .error .ioError

/-- The separator character, `/`. -/
def slash : Char := '/'

/-- JavaScript String.prototype.trim restricted to ASCII whitespace. -/
def strTrim (s : String) : String :=
  String.mk (((s.data.dropWhile Char.isWhitespace).reverse.dropWhile
    Char.isWhitespace).reverse)

/-- JavaScript String.prototype.startsWith. -/
def strStartsWith (s pre : String) : Bool :=
  pre.data.isPrefixOf s.data

/-- JavaScript String.prototype.substring(n) for ASCII content. -/
def strDrop (s : String) (n : Nat) : String :=
  String.mk (s.data.drop n)

/-- Split a string at every `/` (helper for turning a path string into
segments). -/
def splitOnSlashAux : List Char → List Char → List String
  | [], acc => [String.mk acc.reverse]
  | c :: cs, acc =>
      if c = slash then String.mk acc.reverse :: splitOnSlashAux cs []
      else splitOnSlashAux cs (c :: acc)

/-- The non-empty `/`-separated segments of a path string. -/
def splitSegs (s : String) : List String :=
  (splitOnSlashAux s.data []).filter fun seg => seg != ""

/-- path.isAbsolute on POSIX: the string starts with `/`. -/
def isAbsolute (s : String) : Bool :=
  strStartsWith s "/"

/-- Apply forward-order segments to a (reversed) base path, processing
`.` and `..` lexically the way path.resolve does; `..` at the root stays
at the root. -/
def applySegs : AbsPath → List String → AbsPath
  | base, [] => base
  | base, seg :: rest =>
      if seg = "." then applySegs base rest
      else if seg = ".." then applySegs base.tail rest
      else applySegs (seg :: base) rest

/-- Interpretation of a redirect-target string against the directory of
the marker file: an absolute string stands on its own, a relative one is
path.resolve-d against the base (source lines 51-53). -/
def resolvePathStr (base : AbsPath) (s : String) : AbsPath :=
  if isAbsolute s then applySegs [] (splitSegs s)
  else applySegs base (splitSegs s)

/-- Extraction of the redirect target from the trimmed content of a
`.git` file, source lines 43-48: strip the literal prefix `gitdir: ` and
trim the remainder, else take the whole content. -/
def extractGitDir (gitFileContent : String) : String :=
  if strStartsWith gitFileContent "gitdir: " then
    strTrim (strDrop gitFileContent 8)
  else gitFileContent

/-- The try-block of source lines 34-68: read the `.git` file, parse the
redirect, and if the target exists and is a directory return its parent
as the repository; `.ok none` is the fall-through (unusable marker) and
`.error` a thrown exception, which the caller catches. -/
def tryClassifyFile (fs : FS) (currentDir : AbsPath) : Except FsError (Option AbsPath) :=
  match fs.readFileSync (".git" :: currentDir) with
  | .error e => .error e
  | .ok raw =>
      let gitFileContent := strTrim raw
      let gitDirPath :=
        resolvePathStr (".git" :: currentDir).tail (extractGitDir gitFileContent)
      if fs.existsSync gitDirPath then
        match fs.statSync gitDirPath with
        | .error e => .error e
        | .ok Entry.dir => .ok (some gitDirPath.tail)
        | .ok (Entry.file _) => .ok none
      else .ok none

/-- The warning text of source line 87. -/
def unableMsg : String := "Unable to resolve the repository to open."

/-- The upward walk of source lines 23-89 (the while loop plus the final
warning): returns the resolved repository (or none) together with the
list of user-facing warnings shown, or propagates an uncaught exception.
The loop condition `currentDir !== rootPath` is the `[]` case; the
`parentDir === currentDir` break of lines 79-82 is kept although it can
never fire for a non-root directory. -/
def walk (fs : FS) : AbsPath → Except FsError (Option AbsPath × List String)
  | [] => .ok (none, [unableMsg])
  | seg :: rest =>
      if fs.existsSync (".git" :: seg :: rest) then
        match fs.statSync (".git" :: seg :: rest) with
        | .error e => .error e
        | .ok (Entry.file _) =>
            (match tryClassifyFile fs (seg :: rest) with
             | .ok (some repoPath) => .ok (some repoPath, ([] : List String))
             | _ =>
                 if rest = seg :: rest then .ok (none, [unableMsg])
                 else walk fs rest)
        | .ok Entry.dir => .ok (some (seg :: rest), ([] : List String))
      else
        if rest = seg :: rest then .ok (none, [unableMsg])
        else walk fs rest

/-- Directories at which the walk performs its marker probe (the
existsSync of source line 29), in order. -/
def walkProbes (fs : FS) : AbsPath → List AbsPath
  | [] => []
  | seg :: rest =>
      (seg :: rest) ::
        (if fs.existsSync (".git" :: seg :: rest) then
          match fs.statSync (".git" :: seg :: rest) with
          | .error _ => []
          | .ok (Entry.file _) =>
              (match tryClassifyFile fs (seg :: rest) with
               | .ok (some _) => []
               | _ =>
                   if rest = seg :: rest then []
                   else walkProbes fs rest)
          | .ok Entry.dir => []
        else
          if rest = seg :: rest then []
          else walkProbes fs rest)

inductive ElemKind where
  | file
  | directory
deriving DecidableEq, Repr

/-- Source line 20: a file element starts the walk at its directory. -/
def startDirOf (element : AbsPath) (elementType : ElemKind) : AbsPath :=
  match elementType with
  | ElemKind.file => element.tail
  | ElemKind.directory => element

/-- getRepository of source lines 16-90, with its user-facing warnings
made explicit in the result. -/
def getRepositoryFull (fs : FS) (element : AbsPath) (elementType : ElemKind) :
    Except FsError (Option AbsPath × List String) :=
  walk fs (startDirOf element elementType)

/-- The value getRepository resolves with (string or undefined), i.e.
`resolveRepository` of the spec's section 6. -/
def getRepository (fs : FS) (element : AbsPath) (elementType : ElemKind) :
    Except FsError (Option AbsPath) :=
  (getRepositoryFull fs element elementType).map Prod.fst

/-- The second upward scan of getFileDetails, source lines 125-139 (and
its verbatim copy in openFile, lines 208-222): find the nearest ancestor
strictly below the filesystem root whose `.git` entry is a regular file;
the marker is neither read nor validated.  The statSync of line 130 runs
outside any try/catch, so its failure propagates. -/
def findSubmoduleRoot (fs : FS) : AbsPath → Except FsError (Option AbsPath)
  | [] => .ok none
  | seg :: rest =>
      if fs.existsSync (".git" :: seg :: rest) then
        match fs.statSync (".git" :: seg :: rest) with
        | .error e => .error e
        | .ok (Entry.file _) => .ok (some (seg :: rest))
        | .ok Entry.dir =>
            if rest = seg :: rest then .ok none
            else findSubmoduleRoot fs rest
      else
        if rest = seg :: rest then .ok none
        else findSubmoduleRoot fs rest

/-- Concatenate strings with `/` between them, the way path.relative and
path strings are assembled. -/
def joinWithSlash : List String → String
  | [] => ""
  | [s] => s
  | s :: rest => s ++ "/" ++ joinWithSlash rest

/-- The `vscode.Uri.path` string of a path value. -/
def pathToString (p : AbsPath) : String :=
  "/" ++ joinWithSlash p.reverse

/-- Length of the longest common prefix of two segment lists. -/
def commonPrefixLength : List String → List String → Nat
  | a :: as, b :: bs => if a = b then commonPrefixLength as bs + 1 else 0
  | _, _ => 0

/-- path.relative on POSIX for two absolute paths, lexically: strip the
common prefix, one `..` per remaining source segment, then the remaining
target segments, joined with `/` (source lines 144 and 229). -/
def pathRelative (fromPath toPath : AbsPath) : String :=
  joinWithSlash
    (List.replicate (fromPath.reverse.length -
        commonPrefixLength fromPath.reverse toPath.reverse) ".." ++
      toPath.reverse.drop (commonPrefixLength fromPath.reverse toPath.reverse))

/-- Remove the first occurrence of `pat` from `s`, scanning left to
right; `none` when `pat` does not occur. -/
def replaceFirstAux (pat : List Char) : List Char → Option (List Char)
  | [] => if pat = [] then some [] else none
  | c :: cs =>
      if pat.isPrefixOf (c :: cs) then some ((c :: cs).drop pat.length)
      else (replaceFirstAux pat cs).map fun l => c :: l

/-- JavaScript String.prototype.replace(pat, "") with a string pattern:
remove the first occurrence, return the string unchanged if none. -/
def replaceOnce (s pat : String) : String :=
  match replaceFirstAux pat.data s.data with
  | some l => String.mk l
  | none => s

/-- The string-replace relativization of source lines 121 and 204:
`filePath.replace(repository + "/", "")`. -/
def relativizeReplace (filePath repository : String) : String :=
  replaceOnce filePath (repository ++ "/")

/-- The data getFileDetails computes, source lines 7-12; the editor
selection fields are IDE glue outside the resolution core (spec section
1) and are not modelled. -/
structure FileDetails where
  path : String
  repository : AbsPath
deriving DecidableEq, Repr

/-- getFileDetails of source lines 111-160: resolve the repository, give
up if none, compute the string-replace relative path, then let a second
scan for the nearest `.git` regular file unconditionally override both
the working root and the relative path (path.relative this time). -/
def getFileDetails (fs : FS) (filePath : AbsPath) :
    Except FsError (Option FileDetails) :=
  match getRepository fs filePath ElemKind.file with
  | .error e => .error e
  | .ok none => .ok none
  | .ok (some repository) =>
      match findSubmoduleRoot fs filePath.tail with
      | .error e => .error e
      | .ok (some submoduleRoot) =>
          .ok (some (FileDetails.mk (pathRelative submoduleRoot filePath)
            submoduleRoot))
      | .ok none =>
          .ok (some (FileDetails.mk
            (relativizeReplace (pathToString filePath) (pathToString repository))
            repository))

/-- First character of a string, if any. -/
def firstChar? (s : String) : Option Char :=
  s.data.head?

/-- Path of `q` (forward-order relative segments) joined under root `r`. -/
def joinSegs (r : AbsPath) (q : List String) : AbsPath :=
  q.reverse ++ r

/-- True iff an optional entry is a regular file. -/
def isFileEntry : Option Entry → Bool
  | some (Entry.file _) => true
  | _ => false

/-- Well-formed filesystem: the root is a directory and the parent of
every registered entry is a directory. -/
def FS.WF (fs : FS) : Prop :=
  fs.lookup [] = some Entry.dir ∧
    ∀ pr ∈ fs.entries, pr.1 ≠ [] → fs.lookup pr.1.tail = some Entry.dir

/-- Redirect target as claim C5 states it: trim the content, and when it
starts with `gitdir: ` the target is the bare remainder of the content
(no further trimming). -/
def claimTarget (content : String) : String :=
  if strStartsWith (strTrim content) "gitdir: " then
    strDrop (strTrim content) 8
  else strTrim content

/-- Redirect target per the spec as amended: trim the content, and when
it starts with `gitdir: ` the target is the whitespace-trimmed remainder. -/
def specTarget (content : String) : String :=
  if strStartsWith (strTrim content) "gitdir: " then
    strTrim (strDrop (strTrim content) 8)
  else strTrim content

/-- Classifier for a regular-file marker written from the spec's words
(section 4.2), parameterized by the target-extraction rule: resolve a
non-absolute target against the parent of the marker file, verify the
target exists and is a directory, and return its parent as the
working-tree root; otherwise the marker is unusable (`none`). -/
def classifyWith (targetOf : String → String) (fs : FS) (markerDir : AbsPath)
    (content : String) : Except FsError (Option AbsPath) :=
  let resolved := resolvePathStr markerDir (targetOf content)
  if fs.existsSync resolved then
    match fs.statSync resolved with
    | .error e => .error e
    | .ok Entry.dir => .ok (some resolved.tail)
    | .ok (Entry.file _) => .ok none
  else .ok none

/-- The spec's marker classifier (section 4.2) with the amended
target-extraction rule. -/
def specClassify : FS → AbsPath → String → Except FsError (Option AbsPath) :=
  classifyWith specTarget

/-- The marker classifier exactly as claim C5 words it (bare remainder,
no second trim). -/
def claimClassify : FS → AbsPath → String → Except FsError (Option AbsPath) :=
  classifyWith claimTarget

/- Concrete filesystems used by witnesses and counterexamples.  Paths are
reversed segment lists: `["sub", "libs", "repo"]` is `/repo/libs/sub`. -/

/-- Scenario 1 of the spec: `/repo/.git` a directory, file
`/repo/src/a.ts`. -/
def fs0 : FS :=
  FS.mk
    [([], Entry.dir),
     (["repo"], Entry.dir),
     ([".git", "repo"], Entry.dir),
     (["src", "repo"], Entry.dir),
     (["a.ts", "src", "repo"], Entry.file "")]
    [] []

/-- Scenario 2 of the spec, the standard git submodule layout:
`/repo/.git` a directory, `/repo/libs/sub/.git` a file containing
`gitdir: ../../.git/modules/sub`, which resolves to the existing
directory `/repo/.git/modules/sub`; file `/repo/libs/sub/x.ts`. -/
def fs1 : FS :=
  FS.mk
    [([], Entry.dir),
     (["repo"], Entry.dir),
     ([".git", "repo"], Entry.dir),
     (["modules", ".git", "repo"], Entry.dir),
     (["sub", "modules", ".git", "repo"], Entry.dir),
     (["libs", "repo"], Entry.dir),
     (["sub", "libs", "repo"], Entry.dir),
     ([".git", "sub", "libs", "repo"],
       Entry.file "gitdir: ../../.git/modules/sub"),
     (["x.ts", "sub", "libs", "repo"], Entry.file "")]
    [] []

/-- A repository marker directory sitting at the filesystem root itself,
plus a file `/x.ts`. -/
def fs2 : FS :=
  FS.mk
    [([], Entry.dir),
     ([".git"], Entry.dir),
     (["x.ts"], Entry.file "")]
    [] []

/-- `/a/.git` is a directory but its statSync probe fails (spec section 7
IOError); file `/a/x.ts`. -/
def fs3 : FS :=
  FS.mk
    [([], Entry.dir),
     (["a"], Entry.dir),
     ([".git", "a"], Entry.dir),
     (["x.ts", "a"], Entry.file "")]
    [[".git", "a"]] []

/-- No `.git` anywhere: `/a/x.ts` with no marker on the walk. -/
def fs4 : FS :=
  FS.mk
    [([], Entry.dir),
     (["a"], Entry.dir),
     (["x.ts", "a"], Entry.file "")]
    [] []

/-- `/s/.git` is a file containing `gitdir:  /meta` (two spaces after the
colon) and `/meta` is an existing directory. -/
def fs5 : FS :=
  FS.mk
    [([], Entry.dir),
     (["meta"], Entry.dir),
     (["s"], Entry.dir),
     ([".git", "s"], Entry.file "gitdir:  /meta"),
     (["x.ts", "s"], Entry.file "")]
    [] []

/-- Scenario 4 of the spec: `/repo/.git` a directory and a dangling
redirect at `/repo/libs/sub/.git` (target `/nonexistent` does not
exist); file `/repo/libs/sub/x.ts`. -/
def fs6 : FS :=
  FS.mk
    [([], Entry.dir),
     (["repo"], Entry.dir),
     ([".git", "repo"], Entry.dir),
     (["libs", "repo"], Entry.dir),
     (["sub", "libs", "repo"], Entry.dir),
     ([".git", "sub", "libs", "repo"], Entry.file "gitdir: /nonexistent"),
     (["x.ts", "sub", "libs", "repo"], Entry.file "")]
    [] []

/- Helper lemmas about the embedded primitives. -/

theorem tail_ne_cons (seg : String) (rest : List String) :
    ¬ (rest = seg :: rest) :=
  fun h => List.cons_ne_self seg rest h.symm

theorem existsSync_of_lookup {fs : FS} {p : AbsPath} {e : Entry}
    (h : fs.lookup p = some e) : fs.existsSync p = true := by
  simp [FS.existsSync, h]

theorem existsSync_of_none {fs : FS} {p : AbsPath}
    (h : fs.lookup p = none) : fs.existsSync p = false := by
  simp [FS.existsSync, h]

theorem statSync_of_lookup {fs : FS} {p : AbsPath} {e : Entry}
    (h : fs.lookup p = some e) (hn : p ∉ fs.statFails) :
    fs.statSync p = .ok e := by
  simp [FS.statSync, hn, h]

theorem readFileSync_of_lookup {fs : FS} {p : AbsPath} {content : String}
    (h : fs.lookup p = some (Entry.file content)) (hn : p ∉ fs.readFails) :
    fs.readFileSync p = .ok content := by
  simp [FS.readFileSync, hn, h]

theorem lookup_some_mem {fs : FS} {p : AbsPath} {e : Entry}
    (h : fs.lookup p = some e) : (p, e) ∈ fs.entries := by
  unfold FS.lookup at h
  cases hf : fs.entries.find? fun pr => pr.1 == p with
  | none => rw [hf] at h; simp at h
  | some pr =>
      rw [hf] at h
      have hb : (pr.1 == p) = true := by simpa using List.find?_some hf
      have hp : pr.1 = p := by exact eq_of_beq hb
      have he : pr.2 = e := by simpa using h
      have hmem := List.mem_of_find?_eq_some hf
      have hpr : pr = (p, e) := by
        obtain ⟨a, b⟩ := pr
        simp_all
      rw [← hpr]
      exact hmem

/- Step lemmas for the upward walk. -/

theorem walk_no_marker {fs : FS} {seg : String} {rest : AbsPath}
    (hex : fs.existsSync (".git" :: seg :: rest) = false) :
    walk fs (seg :: rest) = walk fs rest := by
  rw [walk, hex]
  simp [tail_ne_cons]

theorem walk_dir_found {fs : FS} {seg : String} {rest : AbsPath}
    (h : fs.lookup (".git" :: seg :: rest) = some Entry.dir)
    (hn : (".git" :: seg :: rest) ∉ fs.statFails) :
    walk fs (seg :: rest) = .ok (some (seg :: rest), []) := by
  rw [walk, existsSync_of_lookup h, statSync_of_lookup h hn]
  simp

theorem walk_redirect_found {fs : FS} {seg : String} {rest : AbsPath}
    {content : String} {repoPath : AbsPath}
    (h : fs.lookup (".git" :: seg :: rest) = some (Entry.file content))
    (hn : (".git" :: seg :: rest) ∉ fs.statFails)
    (hcl : tryClassifyFile fs (seg :: rest) = .ok (some repoPath)) :
    walk fs (seg :: rest) = .ok (some repoPath, []) := by
  rw [walk, existsSync_of_lookup h, statSync_of_lookup h hn, hcl]
  simp

theorem walk_unusable_file {fs : FS} {seg : String} {rest : AbsPath}
    {content : String}
    (h : fs.lookup (".git" :: seg :: rest) = some (Entry.file content))
    (hn : (".git" :: seg :: rest) ∉ fs.statFails)
    (hcl : ∀ repoPath, tryClassifyFile fs (seg :: rest) ≠ .ok (some repoPath)) :
    walk fs (seg :: rest) = walk fs rest := by
  rw [walk, existsSync_of_lookup h, statSync_of_lookup h hn]
  cases hc : tryClassifyFile fs (seg :: rest) with
  | error e => simp [tail_ne_cons]
  | ok o =>
      cases o with
      | none => simp [tail_ne_cons]
      | some repoPath => exact absurd hc (hcl repoPath)

theorem walk_skip {fs : FS} {d : AbsPath} :
    ∀ start : AbsPath, d <:+ start →
      (∀ c, d <:+ c → c <:+ start → c ≠ d →
        fs.existsSync (".git" :: c) = false) →
      walk fs start = walk fs d := by
  intro start
  induction start with
  | nil =>
      intro hsuf _
      rw [List.suffix_nil.mp hsuf]
  | cons seg rest ih =>
      intro hsuf hno
      by_cases hde : d = seg :: rest
      · rw [hde]
      · have hsufrest : d <:+ rest := by
          rcases List.suffix_cons_iff.mp hsuf with h | h
          · exact absurd h hde
          · exact h
        have hstep : walk fs (seg :: rest) = walk fs rest :=
          walk_no_marker (hno (seg :: rest) hsuf List.suffix_rfl
            fun h => hde h.symm)
        rw [hstep]
        exact ih hsufrest fun c hdc hcr hcd =>
          hno c hdc (hcr.trans (List.suffix_cons seg rest)) hcd

theorem readFileSync_ok_inv {fs : FS} {p : AbsPath} {content : String}
    (h : fs.readFileSync p = .ok content) :
    fs.lookup p = some (Entry.file content) ∧ p ∉ fs.readFails := by
  unfold FS.readFileSync at h
  by_cases hm : p ∈ fs.readFails
  · simp [hm] at h
  · refine ⟨?_, hm⟩
    rw [if_neg hm] at h
    cases hl : fs.lookup p with
    | none => rw [hl] at h; simp at h
    | some e =>
        cases e with
        | file s =>
            rw [hl] at h
            simp only [Except.ok.injEq] at h
            rw [h]
        | dir => rw [hl] at h; simp at h

theorem statSync_ok_inv {fs : FS} {p : AbsPath} {e : Entry}
    (h : fs.statSync p = .ok e) :
    fs.lookup p = some e ∧ p ∉ fs.statFails := by
  unfold FS.statSync at h
  by_cases hm : p ∈ fs.statFails
  · simp [hm] at h
  · refine ⟨?_, hm⟩
    rw [if_neg hm] at h
    cases hl : fs.lookup p with
    | none => rw [hl] at h; simp at h
    | some e2 =>
        rw [hl] at h
        simp only [Except.ok.injEq] at h
        rw [h]

theorem classify_success {fs : FS} {c : AbsPath} {content : String}
    (h : fs.lookup (".git" :: c) = some (Entry.file content))
    (hr : (".git" :: c) ∉ fs.readFails)
    (hdir : fs.lookup (resolvePathStr c (extractGitDir (strTrim content))) =
      some Entry.dir)
    (hsf : resolvePathStr c (extractGitDir (strTrim content)) ∉ fs.statFails) :
    tryClassifyFile fs c =
      .ok (some (resolvePathStr c (extractGitDir (strTrim content))).tail) := by
  unfold tryClassifyFile
  rw [readFileSync_of_lookup h hr]
  simp only [List.tail_cons]
  rw [existsSync_of_lookup hdir, statSync_of_lookup hdir hsf]
  simp

theorem classify_not_success {fs : FS} {c : AbsPath} {content : String}
    (h : fs.lookup (".git" :: c) = some (Entry.file content))
    (hbad : fs.lookup (resolvePathStr c (extractGitDir (strTrim content))) ≠
      some Entry.dir) :
    ∀ repoPath, tryClassifyFile fs c ≠ .ok (some repoPath) := by
  intro repoPath
  unfold tryClassifyFile
  by_cases hm : (".git" :: c) ∈ fs.readFails
  · simp [FS.readFileSync, hm]
  · rw [readFileSync_of_lookup h hm]
    simp only [List.tail_cons]
    cases hlg : fs.lookup (resolvePathStr c (extractGitDir (strTrim content))) with
    | none => simp [existsSync_of_none hlg]
    | some e =>
        cases e with
        | dir => exact absurd hlg hbad
        | file s =>
            rw [existsSync_of_lookup hlg]
            by_cases hsf : resolvePathStr c (extractGitDir (strTrim content)) ∈
              fs.statFails
            · simp [FS.statSync, hsf]
            · simp [statSync_of_lookup hlg hsf]

theorem classify_success_inv {fs : FS} {c : AbsPath} {repoPath : AbsPath}
    (h : tryClassifyFile fs c = .ok (some repoPath)) :
    ∃ content, fs.lookup (".git" :: c) = some (Entry.file content) ∧
      fs.lookup (resolvePathStr c (extractGitDir (strTrim content))) =
        some Entry.dir ∧
      repoPath = (resolvePathStr c (extractGitDir (strTrim content))).tail := by
  unfold tryClassifyFile at h
  cases hread : fs.readFileSync (".git" :: c) with
  | error e => rw [hread] at h; simp at h
  | ok raw =>
      rw [hread] at h
      simp only [List.tail_cons] at h
      obtain ⟨hmark, _⟩ := readFileSync_ok_inv hread
      refine ⟨raw, hmark, ?_⟩
      by_cases hex : fs.existsSync (resolvePathStr c (extractGitDir (strTrim raw))) = true
      · rw [if_pos hex] at h
        cases hst : fs.statSync (resolvePathStr c (extractGitDir (strTrim raw))) with
        | error e => rw [hst] at h; simp at h
        | ok e =>
            rw [hst] at h
            cases e with
            | dir =>
                obtain ⟨hl, _⟩ := statSync_ok_inv hst
                simp only [Except.ok.injEq, Option.some.injEq] at h
                exact ⟨hl, h.symm⟩
            | file s => simp at h
      · rw [if_neg hex] at h
        simp at h

theorem walk_warn {fs : FS} :
    ∀ start res, walk fs start = .ok res →
      res.2 = (match res.1 with | none => [unableMsg] | some _ => []) := by
  intro start
  induction start with
  | nil =>
      intro res h
      rw [walk] at h
      simp only [Except.ok.injEq] at h
      rw [← h]
  | cons seg rest ih =>
      intro res h
      rw [walk] at h
      by_cases hex : fs.existsSync (".git" :: seg :: rest) = true
      · rw [if_pos hex] at h
        cases hst : fs.statSync (".git" :: seg :: rest) with
        | error e => rw [hst] at h; simp at h
        | ok e =>
            rw [hst] at h
            cases e with
            | dir =>
                simp only [Except.ok.injEq] at h
                rw [← h]
            | file s =>
                cases hcl : tryClassifyFile fs (seg :: rest) with
                | ok o =>
                    cases o with
                    | some r =>
                        rw [hcl] at h
                        simp only [Except.ok.injEq] at h
                        rw [← h]
                    | none =>
                        rw [hcl] at h
                        simp only [if_neg (tail_ne_cons seg rest)] at h
                        exact ih res h
                | error e2 =>
                    rw [hcl] at h
                    simp only [if_neg (tail_ne_cons seg rest)] at h
                    exact ih res h
      · rw [if_neg hex, if_neg (tail_ne_cons seg rest)] at h
        exact ih res h

theorem walk_ok {fs : FS} (hs : fs.statFails = []) :
    ∀ start, ∃ res, walk fs start = .ok res := by
  intro start
  induction start with
  | nil => exact ⟨(none, [unableMsg]), rfl⟩
  | cons seg rest ih =>
      rw [walk]
      by_cases hex : fs.existsSync (".git" :: seg :: rest) = true
      · have hl : ∃ e, fs.lookup (".git" :: seg :: rest) = some e := by
          unfold FS.existsSync at hex
          cases hll : fs.lookup (".git" :: seg :: rest) with
          | none => rw [hll] at hex; simp at hex
          | some e => exact ⟨e, rfl⟩
        obtain ⟨e, hl⟩ := hl
        have hnm : (".git" :: seg :: rest) ∉ fs.statFails := by rw [hs]; simp
        rw [if_pos hex, statSync_of_lookup hl hnm]
        cases e with
        | dir => exact ⟨(some (seg :: rest), []), rfl⟩
        | file s =>
            cases hcl : tryClassifyFile fs (seg :: rest) with
            | ok o =>
                cases o with
                | some r => exact ⟨(some r, []), rfl⟩
                | none =>
                    simp only [if_neg (tail_ne_cons seg rest)]
                    exact ih
            | error e2 =>
                simp only [if_neg (tail_ne_cons seg rest)]
                exact ih
      · rw [if_neg hex]
        simp only [if_neg (tail_ne_cons seg rest)]
        exact ih

theorem walk_inv {fs : FS} (hwf : fs.WF) :
    ∀ start root w, walk fs start = .ok (some root, w) →
      fs.lookup root = some Entry.dir ∧
        (fs.lookup (".git" :: root) = some Entry.dir ∨
          ∃ d content, fs.lookup (".git" :: d) = some (Entry.file content) ∧
            fs.lookup (resolvePathStr d (extractGitDir (strTrim content))) =
              some Entry.dir ∧
            root = (resolvePathStr d (extractGitDir (strTrim content))).tail) := by
  intro start
  induction start with
  | nil => intro root w h; rw [walk] at h; simp at h
  | cons seg rest ih =>
      intro root w h
      rw [walk] at h
      by_cases hex : fs.existsSync (".git" :: seg :: rest) = true
      · rw [if_pos hex] at h
        cases hst : fs.statSync (".git" :: seg :: rest) with
        | error e => rw [hst] at h; simp at h
        | ok e =>
            rw [hst] at h
            obtain ⟨hl, hnm⟩ := statSync_ok_inv hst
            cases e with
            | dir =>
                simp only [Except.ok.injEq, Prod.mk.injEq, Option.some.injEq] at h
                obtain ⟨hr, _⟩ := h
                subst hr
                constructor
                · exact hwf.2 (".git" :: seg :: rest, Entry.dir)
                    (lookup_some_mem hl) (by simp)
                · left; exact hl
            | file s =>
                cases hcl : tryClassifyFile fs (seg :: rest) with
                | ok o =>
                    cases o with
                    | some r =>
                        rw [hcl] at h
                        simp only [Except.ok.injEq, Prod.mk.injEq,
                          Option.some.injEq] at h
                        obtain ⟨hr, _⟩ := h
                        subst hr
                        obtain ⟨content, hm, hdir, hrt⟩ := classify_success_inv hcl
                        constructor
                        · cases hg : resolvePathStr (seg :: rest)
                            (extractGitDir (strTrim content)) with
                          | nil =>
                              rw [hg] at hrt
                              rw [hrt]
                              exact hwf.1
                          | cons a b =>
                              rw [hg] at hrt hdir
                              rw [hrt]
                              exact hwf.2 (a :: b, Entry.dir)
                                (lookup_some_mem hdir) (by simp)
                        · right
                          exact ⟨seg :: rest, content, hm, hdir, hrt⟩
                    | none =>
                        rw [hcl] at h
                        simp only [if_neg (tail_ne_cons seg rest)] at h
                        exact ih root w h
                | error e2 =>
                    rw [hcl] at h
                    simp only [if_neg (tail_ne_cons seg rest)] at h
                    exact ih root w h
      · rw [if_neg hex, if_neg (tail_ne_cons seg rest)] at h
        exact ih root w h

theorem findSub_finds {fs : FS} {s : AbsPath} (hs : fs.statFails = [])
    (hne : s ≠ []) {content : String}
    (hfile : fs.lookup (".git" :: s) = some (Entry.file content)) :
    ∀ start, s <:+ start →
      (∀ c, s <:+ c → c <:+ start → c ≠ s →
        isFileEntry (fs.lookup (".git" :: c)) = false) →
      findSubmoduleRoot fs start = .ok (some s) := by
  intro start
  induction start with
  | nil => intro hsuf _; exact absurd (List.suffix_nil.mp hsuf) hne
  | cons seg rest ih =>
      intro hsuf hno
      by_cases hse : s = seg :: rest
      · subst hse
        rw [findSubmoduleRoot, existsSync_of_lookup hfile,
          statSync_of_lookup hfile (by rw [hs]; simp)]
        simp
      · have hsufrest : s <:+ rest := by
          rcases List.suffix_cons_iff.mp hsuf with h | h
          · exact absurd h hse
          · exact h
        have hstep : findSubmoduleRoot fs (seg :: rest) =
            findSubmoduleRoot fs rest := by
          have hcf := hno (seg :: rest) hsuf List.suffix_rfl
            fun hh => hse hh.symm
          cases hlk : fs.lookup (".git" :: seg :: rest) with
          | none =>
              rw [findSubmoduleRoot, existsSync_of_none hlk]
              simp [tail_ne_cons]
          | some e =>
              cases e with
              | file ct => rw [hlk] at hcf; simp [isFileEntry] at hcf
              | dir =>
                  rw [findSubmoduleRoot, existsSync_of_lookup hlk,
                    statSync_of_lookup hlk (by rw [hs]; simp)]
                  simp [tail_ne_cons]
        rw [hstep]
        exact ih hsufrest fun c hdc hcr hcd =>
          hno c hdc (hcr.trans (List.suffix_cons seg rest)) hcd

theorem findSub_ok {fs : FS} (hs : fs.statFails = []) :
    ∀ start, ∃ r, findSubmoduleRoot fs start = .ok r := by
  intro start
  induction start with
  | nil => exact ⟨none, rfl⟩
  | cons seg rest ih =>
      rw [findSubmoduleRoot]
      by_cases hex : fs.existsSync (".git" :: seg :: rest) = true
      · obtain ⟨e, hl⟩ : ∃ e, fs.lookup (".git" :: seg :: rest) = some e := by
          unfold FS.existsSync at hex
          cases hll : fs.lookup (".git" :: seg :: rest) with
          | none => rw [hll] at hex; simp at hex
          | some e => exact ⟨e, rfl⟩
        rw [if_pos hex, statSync_of_lookup hl (by rw [hs]; simp)]
        cases e with
        | file s2 => exact ⟨some (seg :: rest), rfl⟩
        | dir =>
            simp only [if_neg (tail_ne_cons seg rest)]
            exact ih
      · rw [if_neg hex]
        simp only [if_neg (tail_ne_cons seg rest)]
        exact ih

/- Lemmas about the string-level relativizers. -/

theorem isPrefixOf_append (l m : List Char) : l.isPrefixOf (l ++ m) = true := by
  induction l with
  | nil => simp [List.isPrefixOf]
  | cons c cs ih => simp [List.isPrefixOf, ih]

theorem replaceFirstAux_append (pat q : List Char) :
    replaceFirstAux pat (pat ++ q) = some q := by
  cases pat with
  | nil =>
      cases q with
      | nil => rfl
      | cons c cs =>
          show replaceFirstAux [] (c :: cs) = some (c :: cs)
          rw [replaceFirstAux]
          simp [List.isPrefixOf]
  | cons pc pcs =>
      show replaceFirstAux (pc :: pcs) (pc :: (pcs ++ q)) = some q
      rw [replaceFirstAux]
      rw [if_pos (show (pc :: pcs).isPrefixOf (pc :: (pcs ++ q)) = true from
        isPrefixOf_append (pc :: pcs) q)]
      show some ((pc :: (pcs ++ q)).drop (pcs.length + 1)) = some q
      rw [List.drop_succ_cons, List.drop_left]

theorem replaceOnce_append (pat rest : String) :
    replaceOnce (pat ++ rest) pat = rest := by
  unfold replaceOnce
  rw [String.data_append, replaceFirstAux_append]

theorem strNe_data {a : String} (h : a ≠ "") : a.data ≠ [] := by
  intro hd
  exact h (String.ext (by rw [hd]))

theorem commonPrefixLength_append (l m : List String) :
    commonPrefixLength l (l ++ m) = l.length := by
  induction l with
  | nil => simp [commonPrefixLength]
  | cons a as ih => simp [commonPrefixLength, ih]

theorem pathRelative_join (r : AbsPath) (q : List String) :
    pathRelative r (joinSegs r q) = joinWithSlash q := by
  unfold pathRelative joinSegs
  rw [List.reverse_append, List.reverse_reverse, commonPrefixLength_append]
  simp [List.drop_left]

theorem firstChar_joinWithSlash {a : String} (restq : List String)
    (ha : a ≠ "") :
    firstChar? (joinWithSlash (a :: restq)) = a.data.head? := by
  cases restq with
  | nil => rfl
  | cons b bs =>
      show firstChar? (a ++ "/" ++ joinWithSlash (b :: bs)) = a.data.head?
      unfold firstChar?
      rw [String.data_append, String.data_append]
      cases hd : a.data with
      | nil => exact absurd hd (strNe_data ha)
      | cons c cs => simp

/- Claim theorems. -/

/-- C1, amended: for a file `p` whose nearest marker on the upward walk
is a valid redirect marker at submodule working tree `s` (nested
anywhere, in particular strictly inside a superproject), resolution
returns the parent directory of the resolved redirect target.  This
equals `s` exactly when the target's parent is `s`; in the standard git
modules layout (target inside the superproject metadata directory) it is
a different directory, so the returned root is generally not `s`. -/
theorem c1_submodule_redirect (fs : FS) (p s : AbsPath) (content : String)
    (hne : s ≠ [])
    (hsuf : s <:+ p.tail)
    (hmark : fs.lookup (".git" :: s) = some (Entry.file content))
    (hms : (".git" :: s) ∉ fs.statFails)
    (hmr : (".git" :: s) ∉ fs.readFails)
    (hdir : fs.lookup (resolvePathStr s (extractGitDir (strTrim content))) =
      some Entry.dir)
    (hgs : resolvePathStr s (extractGitDir (strTrim content)) ∉ fs.statFails)
    (hnear : ∀ c ∈ p.tail.tails, s <:+ c → c ≠ s →
      fs.existsSync (".git" :: c) = false) :
    getRepository fs p ElemKind.file =
      .ok (some (resolvePathStr s (extractGitDir (strTrim content))).tail) := by
  obtain ⟨seg, rest, rfl⟩ : ∃ seg rest, s = seg :: rest := by
    cases s with
    | nil => exact absurd rfl hne
    | cons a b => exact ⟨a, b, rfl⟩
  have hskip := @walk_skip fs (seg :: rest) p.tail hsuf
    fun c hdc hcr hcd => hnear c ((List.mem_tails c p.tail).mpr hcr) hdc hcd
  show (walk fs p.tail).map Prod.fst = _
  rw [hskip, walk_redirect_found hmark hms (classify_success hmark hmr hdir hgs)]
  rfl

/-- C1 as stated is false on the code: in the spec's own scenario 2 (the
standard submodule layout, redirect target `/repo/.git/modules/sub`),
the file `/repo/libs/sub/x.ts` resolves to `/repo/.git/modules` — the
parent of the redirect target — and not to the submodule working tree
`/repo/libs/sub`. -/
theorem c1_counterexample :
    getRepository fs1 ["x.ts", "sub", "libs", "repo"] ElemKind.file =
      .ok (some ["modules", ".git", "repo"]) ∧
    (["modules", ".git", "repo"] : AbsPath) ≠ ["sub", "libs", "repo"] :=
  ⟨rfl, by decide⟩

theorem c1_witness :
    fs1.lookup [".git", "sub", "libs", "repo"] =
      some (Entry.file "gitdir: ../../.git/modules/sub") ∧
    getRepository fs1 ["x.ts", "sub", "libs", "repo"] ElemKind.file =
      .ok (some ((resolvePathStr ["sub", "libs", "repo"]
        (extractGitDir (strTrim "gitdir: ../../.git/modules/sub"))).tail)) :=
  ⟨rfl, c1_submodule_redirect fs1 ["x.ts", "sub", "libs", "repo"]
    ["sub", "libs", "repo"] "gitdir: ../../.git/modules/sub"
    (by decide) (by decide) rfl (by decide) (by decide) rfl (by decide)
    (by decide)⟩

/-- C2, amended: for every file `p` under a directory `d` other than the
filesystem root, where `d` has a marker directory and no directory
between `p`'s directory and `d` has any marker entry, resolution returns
`d` — the parent of the marker.  (For `d` the filesystem root itself the
walk never probes `d` and returns NotFound, see the counterexample.) -/
theorem c2_ordinary_marker (fs : FS) (p d : AbsPath)
    (hne : d ≠ [])
    (hsuf : d <:+ p.tail)
    (hmark : fs.lookup (".git" :: d) = some Entry.dir)
    (hms : (".git" :: d) ∉ fs.statFails)
    (hnear : ∀ c ∈ p.tail.tails, d <:+ c → c ≠ d →
      fs.existsSync (".git" :: c) = false) :
    getRepository fs p ElemKind.file = .ok (some d) := by
  obtain ⟨seg, rest, rfl⟩ : ∃ seg rest, d = seg :: rest := by
    cases d with
    | nil => exact absurd rfl hne
    | cons a b => exact ⟨a, b, rfl⟩
  have hskip := @walk_skip fs (seg :: rest) p.tail hsuf
    fun c hdc hcr hcd => hnear c ((List.mem_tails c p.tail).mpr hcr) hdc hcd
  show (walk fs p.tail).map Prod.fst = _
  rw [hskip, walk_dir_found hmark hms]
  rfl

/-- C2 as stated is false for `d` the filesystem root: `/.git` is a
marker directory and `/x.ts` lies directly under `/` with no closer
marker, yet resolution returns NotFound instead of `/`. -/
theorem c2_counterexample :
    fs2.lookup [".git"] = some Entry.dir ∧
    getRepository fs2 ["x.ts"] ElemKind.file = .ok none ∧
    (Except.ok (none : Option AbsPath) : Except FsError (Option AbsPath)) ≠
      .ok (some ([] : AbsPath)) :=
  ⟨rfl, rfl, by simp⟩

theorem c2_witness :
    fs0.lookup [".git", "repo"] = some Entry.dir ∧
    getRepository fs0 ["a.ts", "src", "repo"] ElemKind.file =
      .ok (some ["repo"]) :=
  ⟨rfl, c2_ordinary_marker fs0 ["a.ts", "src", "repo"] ["repo"]
    (by decide) (by decide) rfl (by decide) (by decide)⟩

/-- C3, confirmed: a level whose marker is a regular file with a
redirect target that does not resolve to an existing directory is never
a successful classification, and the walk from that level equals the
walk from its parent — resolution falls back to the next usable marker
further up, or NotFound if none. -/
theorem c3_unusable_redirect (fs : FS) (seg : String) (rest : AbsPath)
    (content : String)
    (hmark : fs.lookup (".git" :: seg :: rest) = some (Entry.file content))
    (hms : (".git" :: seg :: rest) ∉ fs.statFails)
    (hbad : fs.lookup (resolvePathStr (seg :: rest)
      (extractGitDir (strTrim content))) ≠ some Entry.dir) :
    (∀ r, tryClassifyFile fs (seg :: rest) ≠ .ok (some r)) ∧
      walk fs (seg :: rest) = walk fs rest := by
  have hns := classify_not_success hmark hbad
  exact ⟨hns, walk_unusable_file hmark hms hns⟩

theorem c3_witness :
    fs6.lookup [".git", "sub", "libs", "repo"] =
      some (Entry.file "gitdir: /nonexistent") ∧
    walk fs6 ["sub", "libs", "repo"] = walk fs6 ["libs", "repo"] :=
  ⟨rfl, (c3_unusable_redirect fs6 "sub" ["libs", "repo"]
    "gitdir: /nonexistent" rfl (by decide) (by decide)).2⟩

/-- C4, amended: when the starting directory is the filesystem root the
walk terminates, but the root level is never probed (the loop condition
excludes it, so the probe list is empty) and the result is NotFound
unconditionally — even when a marker directory exists at the root. -/
theorem c4_root_start (fs : FS) (p : AbsPath) (ty : ElemKind)
    (h : startDirOf p ty = []) :
    getRepository fs p ty = .ok none ∧ walkProbes fs (startDirOf p ty) = [] := by
  constructor
  · show (walk fs (startDirOf p ty)).map Prod.fst = _
    rw [h]
    rfl
  · rw [h, walkProbes]

/-- C4 as stated is false: with a marker directory at the filesystem
root, directory-resolution of the root itself returns NotFound and
performs zero probes, not one. -/
theorem c4_counterexample :
    fs2.lookup [".git"] = some Entry.dir ∧
    getRepository fs2 [] ElemKind.directory = .ok none ∧
    walkProbes fs2 (startDirOf [] ElemKind.directory) = [] :=
  ⟨rfl, rfl, rfl⟩

theorem c4_witness :
    startDirOf ["x.ts"] ElemKind.file = [] ∧
    (getRepository fs2 ["x.ts"] ElemKind.file = .ok none ∧
      walkProbes fs2 (startDirOf ["x.ts"] ElemKind.file) = []) :=
  ⟨rfl, c4_root_start fs2 ["x.ts"] ElemKind.file rfl⟩

/-- C5, amended: for every regular-file marker the classifier reads and
trims the content and extracts the redirect target: when the trimmed
content starts with the literal, case-sensitive prefix `gitdir: ` the
target is the whitespace-trimmed remainder (the code trims the remainder
once more, so a target such as `gitdir:  /meta` parses as the absolute
`/meta`, not as the space-prefixed relative remainder), otherwise the
whole trimmed content; a non-absolute target is resolved relative to the
parent directory of the marker file.  The code classifier agrees with
the spec-side classifier built on this amended rule. -/
theorem c5_extraction (fs : FS) (c : AbsPath) (content : String)
    (h : fs.lookup (".git" :: c) = some (Entry.file content))
    (hr : (".git" :: c) ∉ fs.readFails) :
    tryClassifyFile fs c = specClassify fs c content := by
  unfold tryClassifyFile specClassify classifyWith
  rw [readFileSync_of_lookup h hr]
  unfold specTarget extractGitDir
  rfl

/-- C5 as stated is false: on content `gitdir:  /meta` (two spaces) the
claim's bare-remainder target ` /meta` is relative and would resolve to
a non-existing path (unusable marker), but the code trims again, takes
the absolute `/meta`, and classifies successfully. -/
theorem c5_counterexample :
    tryClassifyFile fs5 ["s"] = .ok (some []) ∧
    claimClassify fs5 ["s"] "gitdir:  /meta" = .ok none ∧
    tryClassifyFile fs5 ["s"] ≠ claimClassify fs5 ["s"] "gitdir:  /meta" := by
  refine ⟨rfl, rfl, ?_⟩
  intro hcontra
  rw [show tryClassifyFile fs5 ["s"] = .ok (some []) from rfl,
    show claimClassify fs5 ["s"] "gitdir:  /meta" = .ok none from rfl]
    at hcontra
  simp at hcontra

theorem c5_witness :
    fs5.lookup [".git", "s"] = some (Entry.file "gitdir:  /meta") ∧
    tryClassifyFile fs5 ["s"] = specClassify fs5 ["s"] "gitdir:  /meta" :=
  ⟨rfl, c5_extraction fs5 ["s"] "gitdir:  /meta" rfl (by decide)⟩

/-- C6, amended: the segment-wise relativizer (path.relative, line 144)
is a left inverse of path joining — for a root `r` and non-empty
`..`-free relative segments `q` it returns exactly `q` joined with `/`,
with no leading separator; the string-replace relativizer of line 121
also recovers `q` whenever the file path literally extends `root + "/"`,
but on other inputs it can return the input unchanged, leading `/`
included (see the counterexample). -/
theorem c6_relativize (r : AbsPath) (q : List String)
    (hq : q ≠ [])
    (hseg : ∀ seg ∈ q, seg ≠ "" ∧ slash ∉ seg.data ∧ seg ≠ "..") :
    pathRelative r (joinSegs r q) = joinWithSlash q ∧
    firstChar? (pathRelative r (joinSegs r q)) ≠ some slash ∧
    relativizeReplace (pathToString r ++ "/" ++ joinWithSlash q)
      (pathToString r) = joinWithSlash q := by
  have h1 := pathRelative_join r q
  refine ⟨h1, ?_, ?_⟩
  · rw [h1]
    obtain ⟨a, restq, rfl⟩ : ∃ a restq, q = a :: restq := by
      cases q with
      | nil => exact absurd rfl hq
      | cons a b => exact ⟨a, b, rfl⟩
    obtain ⟨ha, hsl, _⟩ := hseg a (by simp)
    rw [firstChar_joinWithSlash restq ha]
    cases hd : a.data with
    | nil => exact absurd hd (strNe_data ha)
    | cons ch chs =>
        simp only [List.head?_cons, ne_eq, Option.some.injEq]
        intro hch
        apply hsl
        rw [hd, hch]
        exact List.mem_cons_self slash chs
  · exact replaceOnce_append (pathToString r ++ "/") (joinWithSlash q)

/-- C6's claim that for every input the result has no leading separator
is false for the line-121 relativizer: `/a/b.ts` relative to root `/x`
comes back unchanged, starting with `/`. -/
theorem c6_counterexample :
    relativizeReplace "/a/b.ts" "/x" = "/a/b.ts" ∧
    firstChar? (relativizeReplace "/a/b.ts" "/x") = some slash :=
  ⟨rfl, rfl⟩

theorem c6_witness :
    pathRelative ["repo"] (joinSegs ["repo"] ["src", "a.ts"]) =
      joinWithSlash ["src", "a.ts"] ∧
    firstChar? (pathRelative ["repo"] (joinSegs ["repo"] ["src", "a.ts"])) ≠
      some slash ∧
    relativizeReplace
      (pathToString ["repo"] ++ "/" ++ joinWithSlash ["src", "a.ts"])
      (pathToString ["repo"]) = joinWithSlash ["src", "a.ts"] :=
  c6_relativize ["repo"] ["src", "a.ts"] (by decide) (by decide)

/-- C7, confirmed: on a well-formed filesystem (parents of registered
entries are directories, the root is a directory) every successful
resolution returns a root that exists as a directory and either directly
contains a `.git` marker directory or is the parent of a resolved
redirect-target metadata directory. -/
theorem c7_invariant (fs : FS) (hwf : fs.WF) (p : AbsPath) (ty : ElemKind)
    (root : AbsPath)
    (h : getRepository fs p ty = .ok (some root)) :
    fs.lookup root = some Entry.dir ∧
      (fs.lookup (".git" :: root) = some Entry.dir ∨
        ∃ d content, fs.lookup (".git" :: d) = some (Entry.file content) ∧
          fs.lookup (resolvePathStr d (extractGitDir (strTrim content))) =
            some Entry.dir ∧
          root = (resolvePathStr d (extractGitDir (strTrim content))).tail) := by
  have hw : ∃ w, walk fs (startDirOf p ty) = .ok (some root, w) := by
    unfold getRepository getRepositoryFull at h
    cases hwk : walk fs (startDirOf p ty) with
    | error e => rw [hwk] at h; simp [Except.map] at h
    | ok res =>
        rw [hwk] at h
        obtain ⟨r1, w⟩ := res
        simp only [Except.map, Except.ok.injEq] at h
        refine ⟨w, ?_⟩
        rw [h]
  obtain ⟨w, hwk⟩ := hw
  exact walk_inv hwf (startDirOf p ty) root w hwk

theorem c7_witness :
    fs1.WF ∧
    (fs1.lookup ["modules", ".git", "repo"] = some Entry.dir ∧
      (fs1.lookup [".git", "modules", ".git", "repo"] = some Entry.dir ∨
        ∃ d content, fs1.lookup (".git" :: d) = some (Entry.file content) ∧
          fs1.lookup (resolvePathStr d (extractGitDir (strTrim content))) =
            some Entry.dir ∧
          ["modules", ".git", "repo"] =
            (resolvePathStr d (extractGitDir (strTrim content))).tail)) :=
  ⟨by unfold FS.WF; decide,
   c7_invariant fs1 (by unfold FS.WF; decide) ["x.ts", "sub", "libs", "repo"]
     ElemKind.file ["modules", ".git", "repo"] rfl⟩

/-- C8, amended: when every stat probe succeeds, no error escapes the
resolution core — getRepository and getFileDetails always return a value
(missing markers and malformed or unreadable redirect files are absorbed
by the classifier's try/catch and the walk continues).  The statSync
calls of source lines 30 and 130, however, run outside any try/catch, so
a probe failure there propagates out uncaught (see the counterexample). -/
theorem c8_no_throw (fs : FS) (hs : fs.statFails = []) :
    (∀ p ty, (getRepository fs p ty).isOk = true) ∧
    (∀ p, (getFileDetails fs p).isOk = true) := by
  constructor
  · intro p ty
    obtain ⟨res, hres⟩ := walk_ok hs (startDirOf p ty)
    unfold getRepository getRepositoryFull
    rw [hres]
    rfl
  · intro p
    unfold getFileDetails
    cases hrep : getRepository fs p ElemKind.file with
    | error e =>
        exfalso
        obtain ⟨res, hres⟩ := walk_ok hs (startDirOf p ElemKind.file)
        unfold getRepository getRepositoryFull at hrep
        rw [hres] at hrep
        simp [Except.map] at hrep
    | ok o =>
        cases o with
        | none => rfl
        | some repository =>
            obtain ⟨r, hr⟩ := findSub_ok hs p.tail
            rw [hr]
            cases r with
            | none => rfl
            | some s => rfl

/-- C8 as stated is false: an existing marker entry whose stat probe
fails (the statSync of line 30 is outside the try/catch) makes the error
propagate out of getRepository uncaught. -/
theorem c8_counterexample :
    getRepository fs3 ["x.ts", "a"] ElemKind.file = .error FsError.ioError ∧
    (Except.error FsError.ioError :
      Except FsError (Option AbsPath)).isOk = false :=
  ⟨rfl, rfl⟩

theorem c8_witness :
    fs1.statFails = [] ∧
    (getRepository fs1 ["x.ts", "sub", "libs", "repo"] ElemKind.file).isOk =
      true ∧
    (getFileDetails fs1 ["x.ts", "sub", "libs", "repo"]).isOk = true :=
  ⟨rfl,
   (c8_no_throw fs1 rfl).1 ["x.ts", "sub", "libs", "repo"] ElemKind.file,
   (c8_no_throw fs1 rfl).2 ["x.ts", "sub", "libs", "repo"]⟩

/-- C9, amended: the warning is emitted by getRepository itself, not by
its caller — on a walk that exhausts without success it shows exactly
the one warning of source line 87, and on success it shows none.  The
claim that the locator's user-visible effect set is always empty is
false (see the counterexample). -/
theorem c9_warning (fs : FS) (p : AbsPath) (ty : ElemKind)
    (res : Option AbsPath × List String)
    (h : getRepositoryFull fs p ty = .ok res) :
    res.2 = (match res.1 with | none => [unableMsg] | some _ => []) :=
  walk_warn (startDirOf p ty) res h

/-- C9 as stated is false: on a marker-free filesystem the locator
itself emits the warning — its user-visible effect set is non-empty. -/
theorem c9_counterexample :
    getRepositoryFull fs4 ["x.ts", "a"] ElemKind.file =
      .ok (none, [unableMsg]) ∧
    [unableMsg] ≠ ([] : List String) :=
  ⟨rfl, by simp⟩

theorem c9_witness :
    getRepositoryFull fs4 ["x.ts", "a"] ElemKind.file =
      .ok (none, [unableMsg]) ∧
    ((none, [unableMsg]) : Option AbsPath × List String).2 =
      (match ((none, [unableMsg]) : Option AbsPath × List String).1 with
        | none => [unableMsg] | some _ => []) :=
  ⟨rfl, c9_warning fs4 ["x.ts", "a"] ElemKind.file (none, [unableMsg]) rfl⟩

/-- C10, confirmed: after the repository is resolved, the second upward
scan of getFileDetails (and its copy in openFile) finds the nearest
ancestor strictly below the filesystem root whose `.git` entry is a
regular file and unconditionally overrides the result: the returned
working root is that ancestor itself and the relative path is
path.relative against it — the redirect file is never read nor its
target validated, so a dangling-redirect `.git` file skipped by
getRepository is still reported as the working root. -/
theorem c10_override (fs : FS) (p s : AbsPath) (content : String)
    (repo : AbsPath)
    (hs : fs.statFails = [])
    (hne : s ≠ [])
    (hsuf : s <:+ p.tail)
    (hfile : fs.lookup (".git" :: s) = some (Entry.file content))
    (hnear : ∀ c ∈ p.tail.tails, s <:+ c → c ≠ s →
      isFileEntry (fs.lookup (".git" :: c)) = false)
    (hrepo : getRepository fs p ElemKind.file = .ok (some repo)) :
    getFileDetails fs p =
      .ok (some (FileDetails.mk (pathRelative s p) s)) := by
  have hfind := findSub_finds hs hne hfile p.tail hsuf
    fun c hdc hcr hcd => hnear c ((List.mem_tails c p.tail).mpr hcr) hdc hcd
  unfold getFileDetails
  rw [hrepo, hfind]

theorem c10_witness :
    getRepository fs6 ["x.ts", "sub", "libs", "repo"] ElemKind.file =
      .ok (some ["repo"]) ∧
    getFileDetails fs6 ["x.ts", "sub", "libs", "repo"] =
      .ok (some (FileDetails.mk
        (pathRelative ["sub", "libs", "repo"] ["x.ts", "sub", "libs", "repo"])
        ["sub", "libs", "repo"])) ∧
    pathRelative ["sub", "libs", "repo"] ["x.ts", "sub", "libs", "repo"] =
      "x.ts" :=
  ⟨rfl,
   c10_override fs6 ["x.ts", "sub", "libs", "repo"] ["sub", "libs", "repo"]
     "gitdir: /nonexistent" ["repo"] rfl (by decide) (by decide) rfl
     (by decide) rfl,
   rfl⟩
